import Mathlib

/-!
# Tag-indexed catalog and query engine: a shallow embedding

This file embeds the core of the media-cataloging app (the tag index, the
media catalog mutations, and the query engine) as executable Lean
definitions, and proves or refutes the specification claims about them.

Two source variants are modelled:
* namespace `App` — the variant in `app.js` (class `TagManager`,
  `SearchManager`, and the global `renameTag` / `deleteTag` /
  `loadAllData` functions);
* namespace `Outfit` — the variant in `unnamed/part_001` (structured
  tags, `applyFilters`, `saveCategory`, `exportData` / `importData`,
  `deleteFreeTags`).

JavaScript strings are modelled as Lean `String`s; `toLowerCase`,
`trim`, `split`, substring `includes`, `[...new Set(xs)]` and the
default lexicographic `Array.sort()` are modelled by the explicit
executable functions below (ASCII case folding, as in `Char.toLower`;
code-point order for string comparison).  Timestamps (`createdAt`
ISO strings run through `new Date(...).getTime()`) are modelled as the
resulting integer directly.  JavaScript's stable `Array.sort` is
modelled by `List.insertionSort` (a stable sort; the contract — stable
and sorted — determines the output uniquely for a total preorder
comparator).
-/

/-- `s.toLowerCase()` (ASCII range, as `Char.toLower`). -/
def lowerStr (s : String) : String := ⟨s.data.map Char.toLower⟩

/-- `haystack.includes(needle)` for strings: substring containment. -/
def jsIncludes (haystack needle : String) : Bool :=
  decide (needle.data <:+: haystack.data)

/-- `s.split(sep)`-style splitting of a character list at every character
satisfying `p`; empty fragments are kept (as JavaScript does). -/
def splitP (p : Char → Bool) : List Char → List (List Char)
  | [] => [[]]
  | c :: cs =>
    if p c then [] :: splitP p cs
    else
      match splitP p cs with
      | [] => [[c]]
      | w :: ws => (c :: w) :: ws

/-- `text.split(/\s+/).filter(t => t)`: the whitespace-separated words of a
string.  Splitting at every whitespace character and then dropping empty
fragments is the same as regex splitting on whitespace runs and dropping
the possible leading empty fragment. -/
def jsWords (s : String) : List String :=
  ((splitP Char.isWhitespace s.data).filter (· ≠ [])).map (fun l => ⟨l⟩)

/-- character-level `s.trim()`: drop whitespace from both ends. -/
def trimChars (l : List Char) : List Char :=
  ((l.dropWhile Char.isWhitespace).reverse.dropWhile Char.isWhitespace).reverse

/-- `s.trim()`. -/
def jsTrim (s : String) : String := ⟨trimChars s.data⟩

/-- `s.replace(/\s+/g, rep)`: every maximal whitespace run becomes the single
character `rep`.  The boolean argument records whether the previous
character belonged to a whitespace run. -/
def collapseRunsGo (rep : Char) : Bool → List Char → List Char
  | _, [] => []
  | prevWs, c :: cs =>
    if c.isWhitespace then
      if prevWs then collapseRunsGo rep true cs
      else rep :: collapseRunsGo rep true cs
    else c :: collapseRunsGo rep false cs

/-- `tag.trim().replace(/\s+/g, ' ')` as in `renameTag`. -/
def normalizeTag (s : String) : String :=
  ⟨collapseRunsGo ' ' false (trimChars s.data)⟩

/-- `label.toLowerCase().replace(/\s+/g, '_')`: category-key derivation in
`saveCategory`. -/
def deriveKey (label : String) : String :=
  ⟨collapseRunsGo '_' false (lowerStr label).data⟩

/-- `[...new Set(l)]`: first-occurrence de-duplication, via the set of
already-seen elements. -/
def jsDedupGo (seen : List String) : List String → List String
  | [] => []
  | x :: xs => if x ∈ seen then jsDedupGo seen xs else x :: jsDedupGo (x :: seen) xs

/-- `[...new Set(l)]`. -/
def jsDedup (l : List String) : List String := jsDedupGo [] l

/-- The string order used by JavaScript's default `Array.sort()`
(lexicographic by character code). -/
def strLe (a b : String) : Prop := a.data.map Char.toNat ≤ b.data.map Char.toNat

instance : DecidableRel strLe := fun _ _ => inferInstanceAs (Decidable (_ ≤ _))

instance : IsTrans String strLe := ⟨fun _ _ _ h1 h2 => le_trans h1 h2⟩

instance : IsTotal String strLe := ⟨fun _ _ => le_total _ _⟩

/-- `l.sort()` on an array of strings: stable sort in lexicographic order. -/
def sortStrs (l : List String) : List String := l.insertionSort strLe

/-! ## Lemmas about the string primitives -/

theorem toLower_isWhitespace (c : Char) :
    (Char.toLower c).isWhitespace = c.isWhitespace := by
  unfold Char.toLower
  by_cases h : c.toNat ≥ 65 ∧ c.toNat ≤ 90
  · rw [if_pos h]
    have hws : c.isWhitespace = false := by
      unfold Char.isWhitespace
      have h1 : ¬ (c = ' ') := by rintro rfl; exact absurd h (by decide)
      have h2 : ¬ (c = '\t') := by rintro rfl; exact absurd h (by decide)
      have h3 : ¬ (c = '\x0d') := by rintro rfl; exact absurd h (by decide)
      have h4 : ¬ (c = '\n') := by rintro rfl; exact absurd h (by decide)
      simp [h1, h2, h3, h4]
    rw [hws]
    obtain ⟨h1, h2⟩ := h
    generalize c.toNat = n at h1 h2
    interval_cases n <;> decide
  · rw [if_neg h]

theorem splitP_ne_nil (p : Char → Bool) (l : List Char) : splitP p l ≠ [] := by
  induction l with
  | nil => simp [splitP]
  | cons c cs ih =>
    rw [splitP]
    split
    · simp
    · split
      · simp
      · simp

theorem splitP_map_toLower (l : List Char) :
    splitP Char.isWhitespace (l.map Char.toLower) =
      (splitP Char.isWhitespace l).map (List.map Char.toLower) := by
  induction l with
  | nil => rfl
  | cons c cs ih =>
    simp only [List.map_cons, splitP, toLower_isWhitespace]
    by_cases h : c.isWhitespace
    · simp [h, ih]
    · simp only [h, if_false, Bool.false_eq_true, ite_false, ih]
      cases hsp : splitP Char.isWhitespace cs with
      | nil => exact absurd hsp (splitP_ne_nil _ _)
      | cons w ws => simp [hsp]

theorem jsWords_lowerStr (s : String) :
    jsWords (lowerStr s) = (jsWords s).map lowerStr := by
  have hfilter :
      ((splitP Char.isWhitespace s.data).map (List.map Char.toLower)).filter (· ≠ []) =
        ((splitP Char.isWhitespace s.data).filter (· ≠ [])).map (List.map Char.toLower) := by
    rw [List.filter_map]
    congr 1
    apply List.filter_congr
    intro l _
    show decide (l.map Char.toLower ≠ []) = decide (l ≠ [])
    exact decide_eq_decide.mpr (by simp)
  unfold jsWords
  rw [show (lowerStr s).data = s.data.map Char.toLower from rfl, splitP_map_toLower,
    hfilter, List.map_map, List.map_map]
  rfl

theorem mem_jsWords_ne_empty {w : String} {s : String} (h : w ∈ jsWords s) :
    w.data ≠ [] := by
  unfold jsWords at h
  rw [List.mem_map] at h
  obtain ⟨l, hl, rfl⟩ := h
  have := List.of_mem_filter hl
  simpa using this

theorem mem_jsDedupGo (x : String) (l : List String) (seen : List String) :
    x ∈ jsDedupGo seen l ↔ x ∈ l ∧ x ∉ seen := by
  induction l generalizing seen with
  | nil => simp [jsDedupGo]
  | cons y ys ih =>
    simp only [jsDedupGo]
    by_cases h : y ∈ seen
    · rw [if_pos h, ih, List.mem_cons]
      constructor
      · rintro ⟨hx, hs⟩; exact ⟨Or.inr hx, hs⟩
      · rintro ⟨hy | hx, hs⟩
        · subst hy; exact absurd h hs
        · exact ⟨hx, hs⟩
    · rw [if_neg h, List.mem_cons, List.mem_cons, ih]
      constructor
      · rintro (rfl | ⟨hx, hs⟩)
        · exact ⟨Or.inl rfl, h⟩
        · rw [List.mem_cons] at hs
          push_neg at hs
          exact ⟨Or.inr hx, hs.2⟩
      · rintro ⟨rfl | hx, hs⟩
        · exact Or.inl rfl
        · by_cases hxy : x = y
          · exact Or.inl hxy
          · refine Or.inr ⟨hx, ?_⟩
            rw [List.mem_cons]
            push_neg
            exact ⟨hxy, hs⟩

theorem nodup_jsDedupGo (l : List String) (seen : List String) :
    (jsDedupGo seen l).Nodup := by
  induction l generalizing seen with
  | nil => simp [jsDedupGo]
  | cons y ys ih =>
    simp only [jsDedupGo]
    split
    · exact ih _
    · rw [List.nodup_cons]
      refine ⟨fun hy => ?_, ih _⟩
      rw [mem_jsDedupGo] at hy
      exact hy.2 (List.mem_cons_self y seen)

theorem mem_jsDedup (x : String) (l : List String) : x ∈ jsDedup l ↔ x ∈ l := by
  unfold jsDedup
  rw [mem_jsDedupGo]
  simp

theorem nodup_jsDedup (l : List String) : (jsDedup l).Nodup :=
  nodup_jsDedupGo l []

/-! ## The `app.js` variant -/

namespace App

/-- A media item as created and mutated by `app.js` (`handleFiles`,
`saveImageEdit`): free tags, memo, immutable creation timestamp (the
`new Date(createdAt).getTime()` value). -/
structure Image where
  id : Nat
  tags : List String
  memo : String
  createdAt : Int
deriving DecidableEq

/-- The tag-frequency index built by `loadAllData`: for each image, each
entry of its tag list increments the tag's counter (absent keys read as 0
via `|| 0`). -/
def computeFrequency (images : List Image) : String → Nat :=
  fun t => (images.flatMap Image.tags).count t

/-- The number of images whose tag list contains `t` (the quantity the
spec's `usageCount` invariant talks about). -/
def itemUsage (images : List Image) (t : String) : Nat :=
  images.countP (fun img => t ∈ img.tags)

/-- The state of `TagManager`'s vocabulary together with its persisted copy
(`db.saveTags`). -/
structure TagStore where
  allTags : List String
  dbTags : List String
deriving DecidableEq

/-- `TagManager.addTag(tag)`: trim; early return when the trimmed tag is
empty or already present (exact match); otherwise push, `sort()`, persist.
The second component is the value the JavaScript function returns: it is
`undefined` on every path, modelled as `none` (`some b` would model
returning the boolean `b`). -/
def addTag (tag : String) (s : TagStore) : TagStore × Option Bool :=
  let trimmedTag := jsTrim tag
  if trimmedTag = "" ∨ trimmedTag ∈ s.allTags then (s, none)
  else
    let newTags := sortStrs (s.allTags ++ [trimmedTag])
    ({ allTags := newTags, dbTags := newTags }, none)

/-- `TagManager.removeTag(tag)`: filter out the tag and persist. -/
def removeTag (tag : String) (s : TagStore) : TagStore :=
  let newTags := s.allTags.filter (fun t => t ≠ tag)
  { allTags := newTags, dbTags := newTags }

/-- The parts of `appState` touched by the tag cascades, with the
persisted copies of the image and tag collections. -/
structure Catalog where
  allImages : List Image
  allTags : List String
  tagFrequency : String → Nat
  dbImages : List Image
  dbTags : List String

/-- `renameTag(oldTag, newTag)` from `app.js`: early return on empty or
unchanged input; normalize the new tag; replace the tag in every image's
list and de-duplicate it (`[...new Set(...)]`); persist every image; in
the merge case (`newTag` already in the vocabulary) only remove `oldTag`
from the vocabulary, otherwise remove `oldTag`, push `newTag` and
`sort()`; finally move `tagFrequency[oldTag]` to `newTag` (a key copy,
not a recount). -/
def renameTag (oldTag newTag0 : String) (s : Catalog) : Catalog :=
  if newTag0 = "" ∨ newTag0 = oldTag then s
  else
    let newTag := normalizeTag newTag0
    if newTag = "" then s
    else
      let isExisting := newTag ∈ s.allTags
      let images := s.allImages.map (fun img =>
        { img with tags := jsDedup (img.tags.map (fun t => if t = oldTag then newTag else t)) })
      let allTags :=
        if isExisting then s.allTags.filter (fun t => t ≠ oldTag)
        else sortStrs (s.allTags.filter (fun t => t ≠ oldTag) ++ [newTag])
      let tagFrequency :=
        if s.tagFrequency oldTag ≠ 0 then
          fun t => if t = oldTag then 0 else if t = newTag then s.tagFrequency oldTag else s.tagFrequency t
        else s.tagFrequency
      { allImages := images
        allTags := allTags
        tagFrequency := tagFrequency
        dbImages := images
        dbTags := allTags }

/-- `deleteTag()` from `app.js` (for the tag stored in
`currentTagToDelete`): remove the tag from every image, persist the
images, remove it from the vocabulary, persist, delete its frequency key. -/
def deleteTag (tag : String) (s : Catalog) : Catalog :=
  let images := s.allImages.map (fun img => { img with tags := img.tags.filter (fun t => t ≠ tag) })
  let allTags := s.allTags.filter (fun t => t ≠ tag)
  { allImages := images
    allTags := allTags
    tagFrequency := fun t => if t = tag then 0 else s.tagFrequency t
    dbImages := images
    dbTags := allTags }

/-- `SearchManager.filterImages(images, searchTags, useOR)`: lowercases
each image's tags and keeps an image when every (`AND`) or some (`OR`)
search tag is a member of that lowercased list. -/
def filterImages (images : List Image) (searchTags : List String) (useOR : Bool) : List Image :=
  if searchTags = [] then images
  else images.filter (fun image =>
    let imageTags := image.tags.map lowerStr
    if useOR then searchTags.any (fun tag => tag ∈ imageTags)
    else searchTags.all (fun tag => tag ∈ imageTags))

/-- The order `SearchManager.sortImages` sorts into for `'newest'`
(comparator `timeB - timeA`): descending `createdAt`. -/
def newestRel (a b : Image) : Prop := b.createdAt ≤ a.createdAt

/-- The order for any other `sortBy` (comparator `timeA - timeB`):
ascending `createdAt`. -/
def oldestRel (a b : Image) : Prop := a.createdAt ≤ b.createdAt

instance : DecidableRel newestRel := fun _ _ => inferInstanceAs (Decidable (_ ≤ _))

instance : DecidableRel oldestRel := fun _ _ => inferInstanceAs (Decidable (_ ≤ _))

instance : IsTrans Image newestRel := ⟨fun _ _ _ h1 h2 => le_trans h2 h1⟩

instance : IsTotal Image newestRel := ⟨fun _ _ => (le_total _ _).symm⟩

instance : IsTrans Image oldestRel := ⟨fun _ _ _ h1 h2 => le_trans h1 h2⟩

instance : IsTotal Image oldestRel := ⟨fun _ _ => le_total _ _⟩

/-- `SearchManager.sortImages(images, sortBy)`: a stable sort of a copy of
the array, by the comparator `sortBy === 'newest' ? timeB - timeA :
timeA - timeB`. -/
def sortImages (images : List Image) (sortBy : String) : List Image :=
  if sortBy = "newest" then images.insertionSort newestRel
  else images.insertionSort oldestRel

end App

/-! ## The `unnamed/part_001` variant -/

namespace Outfit

/-- A JavaScript value as it can appear under a key of an item's
`structuredTags` or of `structuredFilters`: `undefined` (missing
property), `null`, a string, or an array of strings. -/
inductive JVal where
  | undefined
  | nullv
  | str (s : String)
  | arr (vs : List String)
deriving DecidableEq

/-- JavaScript truthiness of such a value (`undefined`, `null` and `""`
are falsy; every array object is truthy). -/
def JVal.truthy : JVal → Bool
  | .undefined => false
  | .nullv => false
  | .str s => decide (s ≠ "")
  | .arr _ => true

/-- `Array.isArray(v)`. -/
def JVal.isArr : JVal → Bool
  | .arr _ => true
  | _ => false

/-- The elements of an array value (`[]` on non-arrays; only read under an
`isArr` guard or after `|| []`). -/
def JVal.arrVals : JVal → List String
  | .arr l => l
  | _ => []

/-- `v || []`. -/
def JVal.orEmptyArr (v : JVal) : JVal := if v.truthy then v else .arr []

/-- `receiver.includes(x)`: array membership on an array receiver,
substring containment on a string receiver (the receiver is always truthy
or an array where this is used). -/
def JVal.includes : JVal → String → Bool
  | .arr l, x => decide (x ∈ l)
  | .str s, x => jsIncludes s x
  | _, _ => false

/-- Strict equality `===` between such values.  Two array values are
distinct heap objects in every comparison the app performs, so array
against array is reference inequality, modelled as `false`. -/
def JVal.strictEq : JVal → JVal → Bool
  | .undefined, .undefined => true
  | .nullv, .nullv => true
  | .str a, .str b => decide (a = b)
  | _, _ => false

/-- One category of the structured-tag schema
(`appState.structuredTagsConfig[key]`). -/
structure CatConfig where
  label : String
  values : List String
  multi : Bool
deriving DecidableEq

/-- A media item of the `part_001` variant. -/
structure Image where
  id : Nat
  freeTags : List String
  structuredTags : List (String × JVal)
  memo : String
  createdAt : Int
deriving DecidableEq

/-- Property read `obj[key]` on a string-keyed object: `undefined` when
the key is missing. -/
def jvGet (l : List (String × JVal)) (k : String) : JVal :=
  (l.lookup k).getD .undefined

/-- Property write `obj[key] = v`: overwrite in place when the key exists
(JavaScript keeps the key's insertion position), append otherwise. -/
def setAssoc {β : Type} (l : List (String × β)) (k : String) (v : β) : List (String × β) :=
  if (l.lookup k).isSome then l.map (fun kv => if kv.1 = k then (k, v) else kv)
  else l ++ [(k, v)]

/-- Object spread `{...old, ...new}`: keys of `old` keep their order, with
values overridden by `new` where present; keys only in `new` are appended
in `new`'s order. -/
def mergeAssoc {β : Type} (old new : List (String × β)) : List (String × β) :=
  old.map (fun kv => (kv.1, (new.lookup kv.1).getD kv.2)) ++
    new.filter (fun kv => (old.lookup kv.1).isNone)

/-- The structured-tag check `applyFilters` performs for one schema
category: reject (`false`) when a multi category has a non-empty array
filter none of whose values occurs in `itemValue || []`, or when a single
category has a truthy filter not strictly equal to the item's value;
otherwise the category imposes no constraint. -/
def categoryPass (multi : Bool) (filterValue itemValue : JVal) : Bool :=
  if multi && filterValue.isArr && decide (0 < filterValue.arrVals.length) then
    filterValue.arrVals.any (fun v => itemValue.orEmptyArr.includes v)
  else if !multi && filterValue.truthy then
    itemValue.strictEq filterValue
  else true

/-- The structured-filter pass of `applyFilters`: the loop over
`Object.entries(appState.structuredTagsConfig)` with its early
`return false`s, i.e. the conjunction of `categoryPass` over the schema.
Filter keys outside the schema are never consulted. -/
def structuredPass (config : List (String × CatConfig)) (filters : List (String × JVal))
    (img : Image) : Bool :=
  config.all (fun kc => categoryPass kc.2.multi (jvGet filters kc.1) (jvGet img.structuredTags kc.1))

/-- The free-tag pass of `applyFilters`: with a non-empty active filter
list, `'and'` mode requires every active tag to be a member of the item's
`freeTags` (exact string comparison), any other mode requires at least
one; an empty filter list imposes no constraint. -/
def freeTagPass (activeFreeTags : List String) (filterMode : String) (img : Image) : Bool :=
  if activeFreeTags = [] then true
  else if filterMode = "and" then activeFreeTags.all (fun tag => decide (tag ∈ img.freeTags))
  else activeFreeTags.any (fun tag => decide (tag ∈ img.freeTags))

/-- The structured-tag part of the text-search pass, for one value of
`img.structuredTags`: an array hits a term when some element's lowercase
form contains it; a truthy string hits when its lowercase form contains
it. -/
def jvalTextHit : JVal → String → Bool
  | .arr l, term => l.any (fun item => jsIncludes (lowerStr item) term)
  | .str s, term => decide (s ≠ "") && jsIncludes (lowerStr s) term
  | _, _ => false

/-- The text-search pass of `applyFilters`: the search text is lowercased
(`searchInput.value.toLowerCase()`), split on whitespace runs into terms,
and every term must occur in some lowercased free tag, in the lowercased
memo (when non-empty), or in some structured value. -/
def textPass (searchText : String) (img : Image) : Bool :=
  (jsWords (lowerStr searchText)).all (fun term =>
    img.freeTags.any (fun tag => jsIncludes (lowerStr tag) term)
    || (decide (img.memo ≠ "") && jsIncludes (lowerStr img.memo) term)
    || img.structuredTags.any (fun kv => jvalTextHit kv.2 term))

/-- Descending-`createdAt` order (comparator `timeB - timeA`). -/
def newestRel (a b : Image) : Prop := b.createdAt ≤ a.createdAt

/-- Ascending-`createdAt` order (comparator `timeA - timeB`). -/
def oldestRel (a b : Image) : Prop := a.createdAt ≤ b.createdAt

instance : DecidableRel newestRel := fun _ _ => inferInstanceAs (Decidable (_ ≤ _))

instance : DecidableRel oldestRel := fun _ _ => inferInstanceAs (Decidable (_ ≤ _))

instance : IsTrans Image newestRel := ⟨fun _ _ _ h1 h2 => le_trans h2 h1⟩

instance : IsTotal Image newestRel := ⟨fun _ _ => (le_total _ _).symm⟩

instance : IsTrans Image oldestRel := ⟨fun _ _ _ h1 h2 => le_trans h1 h2⟩

instance : IsTotal Image oldestRel := ⟨fun _ _ => le_total _ _⟩

/-- `applyFilters` of `part_001`: conjunction of the three passes in
source order, then the stable sort by `createdAt`. -/
def applyFilters (config : List (String × CatConfig)) (filters : List (String × JVal))
    (activeFreeTags : List String) (filterMode : String) (searchText : String)
    (sortBy : String) (allImages : List Image) : List Image :=
  let filtered := allImages.filter (fun img =>
    structuredPass config filters img && freeTagPass activeFreeTags filterMode img
      && textPass searchText img)
  if sortBy = "newest" then filtered.insertionSort newestRel
  else filtered.insertionSort oldestRel

/-- The parts of the `part_001` `appState` the modelled operations touch,
with persisted copies (`dbImages`, `dbFreeTags`). -/
structure State where
  allImages : List Image
  allFreeTags : List String
  freeTagFrequency : String → Nat
  dbImages : List Image
  dbFreeTags : List String
  structuredTagsConfig : List (String × CatConfig)
  structuredFilters : List (String × JVal)

/-- `loadAllData`'s frequency computation over `freeTags`. -/
def computeFrequency (images : List Image) : String → Nat :=
  fun t => (images.flatMap Image.freeTags).count t

/-- The empty filter/tag representation for a cardinality: `[]` for a
multi category, `null` for a single one. -/
def emptyFilter (multi : Bool) : JVal := if multi then .arr [] else .nullv

/-- `valuesText.split('\n').map(v => v.trim()).filter(v => v)`. -/
def splitValues (valuesText : String) : List String :=
  (((splitP (fun c => decide (c = '\n')) valuesText.data).map trimChars).filter (· ≠ [])).map
    (fun l => ⟨l⟩)

/-- `saveCategory()` of `part_001`: trim the inputs and bail out on empty
name, empty values text, or an empty processed value list; with
`currentEditingCategoryKey = none` derive a key and add the category
unless the key collides; with an existing key, reset every in-memory
item's value under that key to the empty representation of the **new**
cardinality when the label changed, then store the new config and reset
the category's filter.  The persisted items (`dbImages`) are never
written: `saveCategory` only persists the schema
(`saveStructuredTagsConfig`). -/
def saveCategory (editKey : Option String) (nameInput valuesTextInput : String)
    (multi : Bool) (s : State) : State :=
  let name := jsTrim nameInput
  let valuesText := jsTrim valuesTextInput
  if name = "" ∨ valuesText = "" then s
  else
    let values := splitValues valuesText
    if values = [] then s
    else
      match editKey with
      | none =>
        let key := deriveKey name
        if (s.structuredTagsConfig.lookup key).isSome then s
        else
          { s with
            structuredTagsConfig := setAssoc s.structuredTagsConfig key ⟨name, values, multi⟩
            structuredFilters := setAssoc s.structuredFilters key (emptyFilter multi) }
      | some key =>
        match s.structuredTagsConfig.lookup key with
        | none => s
        | some oldConfig =>
          let allImages :=
            if oldConfig.label ≠ name then
              s.allImages.map (fun img =>
                { img with structuredTags := setAssoc img.structuredTags key (emptyFilter multi) })
            else s.allImages
          { s with
            allImages := allImages
            structuredTagsConfig := setAssoc s.structuredTagsConfig key ⟨name, values, multi⟩
            structuredFilters := setAssoc s.structuredFilters key (emptyFilter multi) }

/-- `deleteFreeTags(tag)` of `part_001`, after the user confirms: when the
recorded frequency is positive, remove the tag from every image's
`freeTags` and persist every image; in any case remove the tag from the
vocabulary, delete its frequency key, and persist the vocabulary. -/
def deleteFreeTags (tag : String) (s : State) : State :=
  let cascade := 0 < s.freeTagFrequency tag
  let images :=
    if cascade then
      s.allImages.map (fun img => { img with freeTags := img.freeTags.filter (fun t => t ≠ tag) })
    else s.allImages
  { s with
    allImages := images
    dbImages := if cascade then images else s.dbImages
    allFreeTags := s.allFreeTags.filter (fun t => t ≠ tag)
    freeTagFrequency := fun t => if t = tag then 0 else s.freeTagFrequency t
    dbFreeTags := s.allFreeTags.filter (fun t => t ≠ tag) }

/-- The record `exportData()` serializes. -/
structure ExportBlob where
  version : Nat
  images : List Image
  freeTags : List String
  structuredTagsConfig : List (String × CatConfig)

/-- `exportData()`. -/
def exportData (s : State) : ExportBlob :=
  ⟨2, s.allImages, s.allFreeTags, s.structuredTagsConfig⟩

/-- `loadStructuredTagsConfig`'s filter initialisation: one empty filter
per schema key. -/
def initFilters (config : List (String × CatConfig)) : List (String × JVal) :=
  config.map (fun kc => (kc.1, emptyFilter kc.2.multi))

/-- `importData` of `part_001`: in overwrite mode (`merge = false`) clear
the stores and the in-memory collections first; spread the incoming
schema over the current one and persist it; append the incoming images,
de-duplicate the union of the vocabularies (`[...new Set(...)]`), persist
both; then `loadAllData()` and `loadStructuredTagsConfig()` re-read the
persisted state, recompute the frequencies, and reset every filter. -/
def importData (merge : Bool) (data : ExportBlob) (s : State) : State :=
  let s1 :=
    if merge then s
    else { s with allImages := [], allFreeTags := [], dbImages := [], dbFreeTags := [] }
  let config := mergeAssoc s1.structuredTagsConfig data.structuredTagsConfig
  let allFreeTags := jsDedup (s1.allFreeTags ++ data.freeTags)
  let dbImages := s1.dbImages ++ data.images
  { allImages := dbImages
    allFreeTags := allFreeTags
    freeTagFrequency := computeFrequency dbImages
    dbImages := dbImages
    dbFreeTags := allFreeTags
    structuredTagsConfig := config
    structuredFilters := initFilters config }

end Outfit

/-! ## Claim-side (specification) predicates -/

/-- Claim-side: `needle` occurs in `hay` as a case-insensitive substring. -/
def specCiSubstr (needle hay : String) : Prop :=
  (lowerStr needle).data <:+: (lowerStr hay).data

instance : ∀ a b, Decidable (specCiSubstr a b) :=
  fun _ _ => inferInstanceAs (Decidable (_ <:+: _))

/-- Claim-side: the values carried by one structured-tag entry, with
multi-valued entries flattened (a `null`/missing entry carries none). -/
def specJValValues : Outfit.JVal → List String
  | .arr l => l
  | .str s => [s]
  | _ => []

/-- Claim-side: all structured tag values of an item, flattened. -/
def specTextValues (img : Outfit.Image) : List String :=
  img.structuredTags.flatMap (fun kv => specJValValues kv.2)

/-- Claim-side: the text-search term `term` hits the item: it occurs as a
case-insensitive substring of a free tag, of the memo, or of a structured
tag value. -/
def specTermHit (term : String) (img : Outfit.Image) : Prop :=
  (∃ tag ∈ img.freeTags, specCiSubstr term tag) ∨ specCiSubstr term img.memo ∨
    ∃ v ∈ specTextValues img, specCiSubstr term v

/-! ## Claims C1 and C2: the usage-count invariant under rename-merge -/

/-- **C1** (code bug): after the merge-rename `renameTag "a" "b"` on a
catalog with items `{1, tags ["a"]}` and `{2, tags ["b"]}` (frequencies
freshly computed by `loadAllData`), two items contain `"b"` but the
stored usage count for `"b"` is `1`: `renameTag` copies `oldTag`'s count
onto `newTag` instead of recomputing it from the post-mutation item set,
so the invariant `usageCount(t) = |{item : t ∈ item.freeTags}|` fails. -/
theorem c1_usage_count_invariant_fails :
    (App.renameTag "a" "b"
        ⟨[⟨1, ["a"], "", 0⟩, ⟨2, ["b"], "", 0⟩], ["a", "b"],
          App.computeFrequency [⟨1, ["a"], "", 0⟩, ⟨2, ["b"], "", 0⟩],
          [⟨1, ["a"], "", 0⟩, ⟨2, ["b"], "", 0⟩], ["a", "b"]⟩).tagFrequency "b" = 1
    ∧ App.itemUsage
        (App.renameTag "a" "b"
          ⟨[⟨1, ["a"], "", 0⟩, ⟨2, ["b"], "", 0⟩], ["a", "b"],
            App.computeFrequency [⟨1, ["a"], "", 0⟩, ⟨2, ["b"], "", 0⟩],
            [⟨1, ["a"], "", 0⟩, ⟨2, ["b"], "", 0⟩], ["a", "b"]⟩).allImages "b" = 2 := by
  decide

/-- **C2** (code bug): in the spec's rename-merge scenario
(`A = {1, tags ["x"]}`, `B = {2, tags ["y"]}`, vocabulary `["x","y"]`,
fresh frequencies), `renameTag "x" "y"` leaves the vocabulary `["y"]`
(so `y` occurs exactly once and `x` is gone) and `A.tags = ["y"]`, but
the stored usage count of `"y"` is `1` — the count carried over from
`"x"` — while the true number of items tagged `"y"` is `2`. -/
theorem c2_rename_merge_count_wrong :
    (App.renameTag "x" "y"
        ⟨[⟨1, ["x"], "", 0⟩, ⟨2, ["y"], "", 0⟩], ["x", "y"],
          App.computeFrequency [⟨1, ["x"], "", 0⟩, ⟨2, ["y"], "", 0⟩],
          [⟨1, ["x"], "", 0⟩, ⟨2, ["y"], "", 0⟩], ["x", "y"]⟩).allTags = ["y"]
    ∧ (App.renameTag "x" "y"
        ⟨[⟨1, ["x"], "", 0⟩, ⟨2, ["y"], "", 0⟩], ["x", "y"],
          App.computeFrequency [⟨1, ["x"], "", 0⟩, ⟨2, ["y"], "", 0⟩],
          [⟨1, ["x"], "", 0⟩, ⟨2, ["y"], "", 0⟩], ["x", "y"]⟩).allImages.map App.Image.tags
        = [["y"], ["y"]]
    ∧ (App.renameTag "x" "y"
        ⟨[⟨1, ["x"], "", 0⟩, ⟨2, ["y"], "", 0⟩], ["x", "y"],
          App.computeFrequency [⟨1, ["x"], "", 0⟩, ⟨2, ["y"], "", 0⟩],
          [⟨1, ["x"], "", 0⟩, ⟨2, ["y"], "", 0⟩], ["x", "y"]⟩).tagFrequency "y" = 1
    ∧ App.itemUsage
        (App.renameTag "x" "y"
          ⟨[⟨1, ["x"], "", 0⟩, ⟨2, ["y"], "", 0⟩], ["x", "y"],
            App.computeFrequency [⟨1, ["x"], "", 0⟩, ⟨2, ["y"], "", 0⟩],
            [⟨1, ["x"], "", 0⟩, ⟨2, ["y"], "", 0⟩], ["x", "y"]⟩).allImages "y" = 2 := by
  decide

/-! ## Claim C3: the free-tag filter passes -/

/-- **C3** counterexample: the comparison is not case-insensitive on the
filter side.  In AND mode, the item `{1, tags ["A"]}` is case-insensitively
a superset of the filter `["A"]`, yet `SearchManager.filterImages` drops
it (it lowercases only the item's tags, not the filter's); likewise
`part_001`'s free-tag pass compares exactly, so the item with tag `"A"`
fails the filter `["a"]` although they agree case-insensitively. -/
theorem c3_counterexample :
    App.filterImages [⟨1, ["A"], "", 0⟩] ["A"] false = []
    ∧ (∀ t ∈ ["A"], ∃ u ∈ (["A"] : List String), lowerStr u = lowerStr t)
    ∧ Outfit.freeTagPass ["a"] "and" ⟨1, ["A"], [], "", 0⟩ = false
    ∧ lowerStr "A" = lowerStr "a" := by
  decide

/-! ## Claim C7: `addTag` -/

/-- **C7** counterexample: `addTag` returns no boolean at all.  The
JavaScript function returns `undefined` (modelled `none`) on every path:
on a successful insert it does not return `true`, and on the empty-input
and duplicate no-op paths it does not return `false`. -/
theorem c7_counterexample :
    (App.addTag "b" ⟨["a"], ["a"]⟩).2 ≠ some true
    ∧ (App.addTag "" ⟨["a"], ["a"]⟩).2 ≠ some false
    ∧ (App.addTag "a" ⟨["a"], ["a"]⟩).2 ≠ some false := by
  decide

/-! ## Claim C9: `saveCategory` label change -/

/-- **C9** counterexample: the label-change reset is not persisted.
Editing category `"cat"` (label `"Old"` → `"New"`, single-select) resets
the in-memory item's value under `"cat"` to `null`, but the persisted
copy of the item still carries the old value: `saveCategory` never calls
`dbUpdateImage`, so the resets do not reach storage. -/
theorem c9_counterexample :
    (Outfit.saveCategory (some "cat") "New" "v1" false
        ⟨[⟨1, [], [("cat", .str "v1")], "", 0⟩], [], fun _ => 0,
          [⟨1, [], [("cat", .str "v1")], "", 0⟩], [],
          [("cat", ⟨"Old", ["v1"], false⟩)], [("cat", .nullv)]⟩).allImages
      = [⟨1, [], [("cat", .nullv)], "", 0⟩]
    ∧ (Outfit.saveCategory (some "cat") "New" "v1" false
        ⟨[⟨1, [], [("cat", .str "v1")], "", 0⟩], [], fun _ => 0,
          [⟨1, [], [("cat", .str "v1")], "", 0⟩], [],
          [("cat", ⟨"Old", ["v1"], false⟩)], [("cat", .nullv)]⟩).dbImages
      = [⟨1, [], [("cat", .str "v1")], "", 0⟩]
    ∧ ([⟨1, [], [("cat", .str "v1")], "", 0⟩] : List Outfit.Image)
        ≠ [⟨1, [], [("cat", .nullv)], "", 0⟩] := by
  decide

/-! ## Claim C10: vocabulary invariants -/

/-- **C10** counterexample: a non-merge `renameTag` does not preserve the
relative order of untouched vocabulary entries.  On the unsorted
vocabulary `["b", "a", "x"]` (the default vocabulary shipped by
`loadAllData` is unsorted), renaming `"x"` to the fresh tag `"z"`
re-sorts the whole list: the untouched entries `"b", "a"` come back as
`"a", "b"`. -/
theorem c10_counterexample :
    (App.renameTag "x" "z" ⟨[], ["b", "a", "x"], fun _ => 0, [], ["b", "a", "x"]⟩).allTags
      = ["a", "b", "z"]
    ∧ (["b", "a", "x"] : List String).filter (fun t => decide (t ∈ (["a", "b"] : List String)))
      = ["b", "a"]
    ∧ ((App.renameTag "x" "z" ⟨[], ["b", "a", "x"], fun _ => 0, [], ["b", "a", "x"]⟩).allTags).filter
        (fun t => decide (t ∈ (["a", "b"] : List String)))
      = ["a", "b"]
    ∧ (["b", "a"] : List String) ≠ ["a", "b"] := by
  decide

/-- **C3** (amended): with a non-empty filter set,
`SearchManager.filterImages` keeps an item iff every (AND) / some (OR)
filter tag is an exact member of the item's *lowercased* tag list — which
coincides with the claimed case-insensitive superset/intersection
semantics exactly when every filter tag is already lowercase (as the tags
produced by `parseSearchQuery` are) — while `part_001`'s free-tag pass
compares the filter tags against the item's tags exactly
(case-sensitively). -/
theorem c3_filter_semantics (images : List App.Image) (searchTags : List String)
    (img : App.Image) (oimg : Outfit.Image) (hne : searchTags ≠ []) :
    (img ∈ App.filterImages images searchTags false ↔
      img ∈ images ∧ ∀ t ∈ searchTags, t ∈ img.tags.map lowerStr) ∧
    (img ∈ App.filterImages images searchTags true ↔
      img ∈ images ∧ ∃ t ∈ searchTags, t ∈ img.tags.map lowerStr) ∧
    ((∀ t ∈ searchTags, lowerStr t = t) →
      ((img ∈ App.filterImages images searchTags false ↔
          img ∈ images ∧ ∀ t ∈ searchTags, ∃ u ∈ img.tags, lowerStr u = lowerStr t) ∧
        (img ∈ App.filterImages images searchTags true ↔
          img ∈ images ∧ ∃ t ∈ searchTags, ∃ u ∈ img.tags, lowerStr u = lowerStr t))) ∧
    (Outfit.freeTagPass searchTags "and" oimg = true ↔ ∀ t ∈ searchTags, t ∈ oimg.freeTags) ∧
    (Outfit.freeTagPass searchTags "or" oimg = true ↔ ∃ t ∈ searchTags, t ∈ oimg.freeTags) := by
  have hAnd : img ∈ App.filterImages images searchTags false ↔
      img ∈ images ∧ ∀ t ∈ searchTags, t ∈ img.tags.map lowerStr := by
    simp [App.filterImages, hne, List.mem_filter, List.all_eq_true]
  have hOr : img ∈ App.filterImages images searchTags true ↔
      img ∈ images ∧ ∃ t ∈ searchTags, t ∈ img.tags.map lowerStr := by
    simp [App.filterImages, hne, List.mem_filter, List.any_eq_true]
  refine ⟨hAnd, hOr, fun hlc => ⟨?_, ?_⟩, ?_, ?_⟩
  · rw [hAnd]
    refine and_congr_right fun _ => forall₂_congr fun t ht => ?_
    rw [hlc t ht, List.mem_map]
  · rw [hOr]
    refine and_congr_right fun _ => exists_congr fun t => and_congr_right fun ht => ?_
    rw [hlc t ht, List.mem_map]
  · simp [Outfit.freeTagPass, hne, List.all_eq_true]
  · simp [Outfit.freeTagPass, hne, List.any_eq_true]

/-- **C3** witness: the amended characterisation applied to the item
`{1, tags ["a"]}` and the lowercase filter `["a"]` in AND mode. -/
theorem c3_witness :
    ((["a"] : List String) ≠ []) ∧
    ((⟨1, ["a"], "", 0⟩ : App.Image) ∈ App.filterImages [⟨1, ["a"], "", 0⟩] ["a"] false ↔
      (⟨1, ["a"], "", 0⟩ : App.Image) ∈ [(⟨1, ["a"], "", 0⟩ : App.Image)] ∧
        ∀ t ∈ ["a"], t ∈ (⟨1, ["a"], "", 0⟩ : App.Image).tags.map lowerStr) :=
  ⟨by decide,
    (c3_filter_semantics [⟨1, ["a"], "", 0⟩] ["a"] ⟨1, ["a"], "", 0⟩ ⟨1, [], [], "", 0⟩
      (by decide)).1⟩

/-! ## Claim C4: the structured filter pass -/

/-- **C4**: for one schema category, `part_001`'s structured pass accepts
an item iff — multi category, non-empty array filter — the item's value
set intersects the filter's value set, and — single category, non-empty
string filter — the item's value is exactly the selected string; an item
without the category key never passes a non-empty filter; empty filters
(`[]`, `null`, missing) impose no constraint; and filter entries whose
keys are not in the schema are never consulted (so unknown keys are
ignored without error). -/
theorem c4_structured_filter_semantics :
    (∀ (fs ivs : List String), fs ≠ [] →
      (Outfit.categoryPass true (.arr fs) (.arr ivs) = true ↔ ∃ v ∈ fs, v ∈ ivs)) ∧
    (∀ (fv : String) (iv : Outfit.JVal), fv ≠ "" →
      (Outfit.categoryPass false (.str fv) iv = true ↔ iv = .str fv)) ∧
    (∀ (fs : List String), fs ≠ [] → Outfit.categoryPass true (.arr fs) .undefined = false) ∧
    (∀ (fv : String), fv ≠ "" → Outfit.categoryPass false (.str fv) .undefined = false) ∧
    (∀ (iv : Outfit.JVal), Outfit.categoryPass true (.arr []) iv = true) ∧
    (∀ (m : Bool) (iv : Outfit.JVal),
      Outfit.categoryPass m .nullv iv = true ∧
      Outfit.categoryPass m .undefined iv = true) ∧
    (∀ (config : List (String × Outfit.CatConfig)) (f1 f2 : List (String × Outfit.JVal))
        (img : Outfit.Image),
      (∀ k ∈ config.map Prod.fst, Outfit.jvGet f1 k = Outfit.jvGet f2 k) →
      Outfit.structuredPass config f1 img = Outfit.structuredPass config f2 img) := by
  refine ⟨?_, ?_, ?_, ?_, ?_, ?_, ?_⟩
  · intro fs ivs hne
    simp [Outfit.categoryPass, Outfit.JVal.isArr, Outfit.JVal.arrVals, Outfit.JVal.orEmptyArr,
      Outfit.JVal.truthy, Outfit.JVal.includes, List.any_eq_true, List.length_pos, hne]
  · intro fv iv hfv
    cases iv <;>
      simp [Outfit.categoryPass, Outfit.JVal.isArr, Outfit.JVal.truthy, Outfit.JVal.strictEq, hfv]
  · intro fs hne
    simp [Outfit.categoryPass, Outfit.JVal.isArr, Outfit.JVal.arrVals, Outfit.JVal.orEmptyArr,
      Outfit.JVal.truthy, Outfit.JVal.includes, List.any_eq_true, List.length_pos, hne]
  · intro fv hfv
    simp [Outfit.categoryPass, Outfit.JVal.isArr, Outfit.JVal.truthy, Outfit.JVal.strictEq, hfv]
  · intro iv
    simp [Outfit.categoryPass, Outfit.JVal.isArr, Outfit.JVal.arrVals]
  · intro m iv
    refine ⟨?_, ?_⟩ <;> cases m <;>
      simp [Outfit.categoryPass, Outfit.JVal.isArr, Outfit.JVal.arrVals, Outfit.JVal.truthy]
  · intro config f1 f2 img h
    induction config with
    | nil => rfl
    | cons kc rest ih =>
      have hrest : Outfit.structuredPass rest f1 img = Outfit.structuredPass rest f2 img :=
        ih (fun k hk => h k (by simp [hk]))
      rw [Outfit.structuredPass, Outfit.structuredPass, List.all_cons, List.all_cons,
        h kc.1 (by simp)]
      exact congrArg (fun y =>
        Outfit.categoryPass kc.2.multi (Outfit.jvGet f2 kc.1)
          (Outfit.jvGet img.structuredTags kc.1) && y) hrest

/-- **C4** witness: the multi-category characterisation applied to the
filter `["red"]` and item value set `["blue", "red"]`, and the
single-category one applied to filter `"top"` and a missing item value. -/
theorem c4_witness :
    ((["red"] : List String) ≠ [] ∧
      (Outfit.categoryPass true (.arr ["red"]) (.arr ["blue", "red"]) = true ↔
        ∃ v ∈ ["red"], v ∈ ["blue", "red"])) ∧
    (("top" : String) ≠ "" ∧ Outfit.categoryPass false (.str "top") .undefined = false) :=
  ⟨⟨by decide, c4_structured_filter_semantics.1 ["red"] ["blue", "red"] (by decide)⟩,
    ⟨by decide, c4_structured_filter_semantics.2.2.2.1 "top" (by decide)⟩⟩

/-! ## Claim C5: the text-search pass -/

/-- The structured part of the text pass agrees with the claim-side
flattened-values reading, for the non-empty terms the splitter
produces. -/
theorem jvalTextHit_iff (v : Outfit.JVal) (w : String) (hw : w.data ≠ []) :
    Outfit.jvalTextHit v (lowerStr w) = true ↔ ∃ x ∈ specJValValues v, specCiSubstr w x := by
  cases v with
  | undefined => simp [Outfit.jvalTextHit, specJValValues]
  | nullv => simp [Outfit.jvalTextHit, specJValValues]
  | arr l =>
    simp [Outfit.jvalTextHit, specJValValues, List.any_eq_true, jsIncludes, specCiSubstr]
  | str s =>
    simp only [Outfit.jvalTextHit, specJValValues, Bool.and_eq_true, decide_eq_true_iff,
      jsIncludes, specCiSubstr, List.mem_singleton, exists_eq_left]
    constructor
    · rintro ⟨_, h⟩; exact h
    · intro h
      refine ⟨?_, h⟩
      rintro rfl
      exact hw (List.map_eq_nil_iff.mp (List.infix_nil.mp h))

/-- **C5**: `part_001`'s text pass accepts an item iff every
whitespace-separated word of the search text occurs as a case-insensitive
substring of one of the item's free tags, of its memo, or of one of its
structured tag values (multi-valued entries flattened); the empty search
text accepts every item. -/
theorem c5_text_search (searchText : String) (img : Outfit.Image) :
    (Outfit.textPass searchText img = true ↔ ∀ w ∈ jsWords searchText, specTermHit w img) ∧
    Outfit.textPass "" img = true := by
  constructor
  · rw [Outfit.textPass, jsWords_lowerStr, List.all_map, List.all_eq_true]
    refine forall_congr' fun w => imp_congr_right fun hw => ?_
    have hw' : w.data ≠ [] := mem_jsWords_ne_empty hw
    simp only [Function.comp_apply]
    rw [specTermHit, Bool.or_eq_true, Bool.or_eq_true, or_assoc]
    apply or_congr
    · simp [List.any_eq_true, jsIncludes, specCiSubstr]
    apply or_congr
    · simp only [Bool.and_eq_true, decide_eq_true_iff, jsIncludes, specCiSubstr]
      constructor
      · rintro ⟨_, h⟩; exact h
      · intro h
        refine ⟨?_, h⟩
        intro hmemo
        rw [hmemo] at h
        exact hw' (List.map_eq_nil_iff.mp (List.infix_nil.mp h))
    · rw [specTextValues]
      simp only [List.any_eq_true, List.mem_flatMap]
      constructor
      · rintro ⟨kv, hkv, hhit⟩
        obtain ⟨x, hx, hsub⟩ := (jvalTextHit_iff kv.2 w hw').mp hhit
        exact ⟨x, ⟨kv, hkv, hx⟩, hsub⟩
      · rintro ⟨x, ⟨kv, hkv, hx⟩, hsub⟩
        exact ⟨kv, hkv, (jvalTextHit_iff kv.2 w hw').mpr ⟨x, hx, hsub⟩⟩
  · rfl

/-! ## Claim C6: sorting -/

/-- Stability of `insertionSort` in filtered form: a predicate whose
satisfying elements are mutually tied under `r` selects the same
subsequence, in the same order, before and after sorting. -/
theorem insertionSort_filter_stable {α : Type} (r : α → α → Prop) [DecidableRel r]
    [IsTotal α r] [IsTrans α r] (l : List α) (p : α → Bool)
    (hp : ∀ a b, p a = true → p b = true → r a b) :
    (l.insertionSort r).filter p = l.filter p := by
  have hpair : (l.filter p).Pairwise r :=
    List.pairwise_of_forall_mem_list
      (fun a ha b hb => hp a b (List.of_mem_filter ha) (List.of_mem_filter hb))
  have hsub : List.Sublist (l.filter p) (l.insertionSort r) :=
    List.sublist_insertionSort hpair (List.filter_sublist l)
  have hfix : (l.filter p).filter p = l.filter p :=
    List.filter_eq_self.mpr (fun a ha => List.of_mem_filter ha)
  have hsub2 : List.Sublist (l.filter p) ((l.insertionSort r).filter p) := by
    have := List.Sublist.filter p hsub
    rwa [hfix] at this
  have hperm : ((l.insertionSort r).filter p).Perm (l.filter p) :=
    (List.perm_insertionSort r l).filter p
  exact (hsub2.eq_of_length hperm.length_eq.symm).symm

/-- **C6**: `SearchManager.sortImages` returns a permutation of its input,
sorted by `createdAt` descending for `"newest"` and ascending for
`"oldest"`, and stably: for every timestamp, the items carrying that
timestamp appear in the output in their original input order. -/
theorem c6_sort_stable (images : List App.Image) :
    (∀ sortBy, (App.sortImages images sortBy).Perm images) ∧
    (App.sortImages images "newest").Sorted App.newestRel ∧
    (App.sortImages images "oldest").Sorted App.oldestRel ∧
    (∀ (sortBy : String) (t : Int),
      (App.sortImages images sortBy).filter (fun img => decide (img.createdAt = t)) =
        images.filter (fun img => decide (img.createdAt = t))) := by
  refine ⟨?_, ?_, ?_, ?_⟩
  · intro sortBy
    rw [App.sortImages]
    split
    · exact List.perm_insertionSort _ _
    · exact List.perm_insertionSort _ _
  · rw [App.sortImages, if_pos rfl]
    exact List.sorted_insertionSort App.newestRel images
  · rw [App.sortImages, if_neg (by decide)]
    exact List.sorted_insertionSort App.oldestRel images
  · intro sortBy t
    rw [App.sortImages]
    split
    · exact insertionSort_filter_stable App.newestRel images _
        (fun a b ha hb => by
          have ha' := of_decide_eq_true ha
          have hb' := of_decide_eq_true hb
          show b.createdAt ≤ a.createdAt
          rw [ha', hb'])
    · exact insertionSort_filter_stable App.oldestRel images _
        (fun a b ha hb => by
          have ha' := of_decide_eq_true ha
          have hb' := of_decide_eq_true hb
          show a.createdAt ≤ b.createdAt
          rw [ha', hb'])

/-- **C7** (amended): `addTag` trims its input and, when the trimmed tag
is empty or an exactly equal tag is already present, changes nothing (and
returns no value); otherwise it inserts the trimmed tag, leaves the
vocabulary lexicographically sorted with exactly the old tags plus the
new one, persists it — and still returns no boolean (`undefined`,
modelled `none`), not `true`. -/
theorem c7_addTag_behavior (tag : String) (s : App.TagStore) :
    ((jsTrim tag = "" ∨ jsTrim tag ∈ s.allTags) → App.addTag tag s = (s, none)) ∧
    (jsTrim tag ≠ "" → jsTrim tag ∉ s.allTags →
      ((App.addTag tag s).1.allTags.Sorted strLe ∧
        (∀ t, t ∈ (App.addTag tag s).1.allTags ↔ t ∈ s.allTags ∨ t = jsTrim tag) ∧
        (App.addTag tag s).1.dbTags = (App.addTag tag s).1.allTags ∧
        (App.addTag tag s).2 = none)) := by
  constructor
  · intro h
    rw [App.addTag, if_pos h]
  · intro h1 h2
    have hcond : ¬ (jsTrim tag = "" ∨ jsTrim tag ∈ s.allTags) := by
      rintro (h | h)
      · exact h1 h
      · exact h2 h
    rw [App.addTag, if_neg hcond]
    refine ⟨List.sorted_insertionSort strLe _, fun t => ?_, rfl, rfl⟩
    rw [sortStrs, List.mem_insertionSort, List.mem_append, List.mem_singleton]

/-- **C7** witness: adding `" b "` to the vocabulary `["a"]` — the
hypotheses hold, the result is sorted, contains exactly `"a"` and `"b"`,
is persisted, and no boolean is returned. -/
theorem c7_witness :
    jsTrim " b " ≠ "" ∧ jsTrim " b " ∉ (["a"] : List String) ∧
      ((App.addTag " b " ⟨["a"], ["a"]⟩).1.allTags.Sorted strLe ∧
        (∀ t, t ∈ (App.addTag " b " ⟨["a"], ["a"]⟩).1.allTags ↔
          t ∈ (["a"] : List String) ∨ t = jsTrim " b ") ∧
        (App.addTag " b " ⟨["a"], ["a"]⟩).1.dbTags = (App.addTag " b " ⟨["a"], ["a"]⟩).1.allTags ∧
        (App.addTag " b " ⟨["a"], ["a"]⟩).2 = none) :=
  ⟨by decide, by decide, (c7_addTag_behavior " b " ⟨["a"], ["a"]⟩).2 (by decide) (by decide)⟩

/-! ## Claim C8: export/import round trip -/

/-- In an association list with no duplicate keys, `lookup` finds the
recorded binding. -/
theorem lookup_eq_some_of_mem {β : Type} (l : List (String × β)) (k : String) (v : β)
    (h : (k, v) ∈ l) (hnd : (l.map Prod.fst).Nodup) : l.lookup k = some v := by
  induction l with
  | nil => simp at h
  | cons x xs ih =>
    obtain ⟨k1, v1⟩ := x
    rw [List.map_cons, List.nodup_cons] at hnd
    rcases List.mem_cons.mp h with h1 | h1
    · obtain ⟨hk, hv⟩ := Prod.mk.injEq .. ▸ h1
      subst hk
      subst hv
      simp [List.lookup]
    · have hk : k ≠ k1 := by
        intro he
        subst he
        exact hnd.1 (List.mem_map.mpr ⟨(k, v), h1, rfl⟩)
      have hbeq : (k == k1) = false := beq_eq_false_iff_ne.mpr hk
      rw [List.lookup, hbeq]
      exact ih h1 hnd.2

/-- Spreading an association list with no duplicate keys over itself
(`{...l, ...l}`) gives it back. -/
theorem mergeAssoc_self {β : Type} (l : List (String × β))
    (hnd : (l.map Prod.fst).Nodup) : Outfit.mergeAssoc l l = l := by
  rw [Outfit.mergeAssoc]
  have h1 : l.map (fun kv => (kv.1, (l.lookup kv.1).getD kv.2)) = l.map id := by
    apply List.map_congr_left
    intro kv hkv
    have := lookup_eq_some_of_mem l kv.1 kv.2 (by rwa [Prod.mk.eta]) hnd
    simp [this]
  have h2 : l.filter (fun kv => (l.lookup kv.1).isNone) = [] := by
    rw [List.filter_eq_nil_iff]
    intro kv hkv
    have := lookup_eq_some_of_mem l kv.1 kv.2 (by rwa [Prod.mk.eta]) hnd
    simp [this]
  rw [h1, h2, List.map_id, List.append_nil]

/-- **C8**: importing the result of `exportData` with overwrite semantics
reproduces the catalog: the item list is unchanged, the vocabulary has
the same members, and the schema is unchanged (the spread of the exported
schema over the current one is the identity because schema keys are
unique). -/
theorem c8_round_trip (s : Outfit.State)
    (hnd : (s.structuredTagsConfig.map Prod.fst).Nodup) :
    (Outfit.importData false (Outfit.exportData s) s).allImages = s.allImages ∧
    (∀ t, t ∈ (Outfit.importData false (Outfit.exportData s) s).allFreeTags ↔
      t ∈ s.allFreeTags) ∧
    (Outfit.importData false (Outfit.exportData s) s).structuredTagsConfig =
      s.structuredTagsConfig := by
  refine ⟨?_, ?_, ?_⟩
  · simp [Outfit.importData, Outfit.exportData]
  · intro t
    simp [Outfit.importData, Outfit.exportData, mem_jsDedup]
  · simp [Outfit.importData, Outfit.exportData, mergeAssoc_self _ hnd]

/-- **C8** witness: the round trip on a concrete one-item catalog. -/
theorem c8_witness :
    (((([("cat", (⟨"Old", ["v1"], false⟩ : Outfit.CatConfig))] : List (String × Outfit.CatConfig)).map
        Prod.fst).Nodup) ∧
      (Outfit.importData false
        (Outfit.exportData
          ⟨[⟨1, ["t"], [("cat", .str "v1")], "m", 3⟩], ["t", "u"], fun _ => 0,
            [⟨1, ["t"], [("cat", .str "v1")], "m", 3⟩], ["t", "u"],
            [("cat", ⟨"Old", ["v1"], false⟩)], [("cat", .nullv)]⟩)
        ⟨[⟨1, ["t"], [("cat", .str "v1")], "m", 3⟩], ["t", "u"], fun _ => 0,
          [⟨1, ["t"], [("cat", .str "v1")], "m", 3⟩], ["t", "u"],
          [("cat", ⟨"Old", ["v1"], false⟩)], [("cat", .nullv)]⟩).allImages
        = [⟨1, ["t"], [("cat", .str "v1")], "m", 3⟩]) :=
  ⟨by decide,
    (c8_round_trip
      ⟨[⟨1, ["t"], [("cat", .str "v1")], "m", 3⟩], ["t", "u"], fun _ => 0,
        [⟨1, ["t"], [("cat", .str "v1")], "m", 3⟩], ["t", "u"],
        [("cat", ⟨"Old", ["v1"], false⟩)], [("cat", .nullv)]⟩ (by decide)).1⟩

/-- **C9** (amended): when `saveCategory` edits an existing category and
the (trimmed) label differs from the stored one, every in-memory item's
value under the key is reset to the empty representation of the new
cardinality (`null` for single, `[]` for multi) — but the persisted
items are untouched: the resets are not written to storage. -/
theorem c9_label_change_resets_memory_only (key nameInput valuesTextInput : String)
    (multi : Bool) (s : Outfit.State) (oldConfig : Outfit.CatConfig)
    (hk : s.structuredTagsConfig.lookup key = some oldConfig)
    (hname : jsTrim nameInput ≠ "")
    (hvt : jsTrim valuesTextInput ≠ "")
    (hvals : Outfit.splitValues (jsTrim valuesTextInput) ≠ [])
    (hlabel : oldConfig.label ≠ jsTrim nameInput) :
    (Outfit.saveCategory (some key) nameInput valuesTextInput multi s).allImages =
      s.allImages.map (fun img =>
        { img with
          structuredTags := Outfit.setAssoc img.structuredTags key (Outfit.emptyFilter multi) }) ∧
    (Outfit.saveCategory (some key) nameInput valuesTextInput multi s).dbImages = s.dbImages := by
  have hcond : ¬ (jsTrim nameInput = "" ∨ jsTrim valuesTextInput = "") := by
    rintro (h | h)
    · exact hname h
    · exact hvt h
  simp only [Outfit.saveCategory]
  rw [if_neg hcond, if_neg hvals, hk]
  split
  next h => exact absurd h (by simp)
  next x h =>
    obtain rfl : x = oldConfig := by
      injection h with h'
      exact h'.symm
    rw [if_pos hlabel]
    exact ⟨rfl, rfl⟩

/-- **C9** witness: the amended statement applied to the concrete
one-item state with category `"cat"` renamed from `"Old"` to `"New"`. -/
theorem c9_witness :
    (([("cat", (⟨"Old", ["v1"], false⟩ : Outfit.CatConfig))] : List (String × Outfit.CatConfig)).lookup
        "cat" = some ⟨"Old", ["v1"], false⟩) ∧
    (Outfit.saveCategory (some "cat") "New" "v1" false
        ⟨[⟨1, [], [("cat", .str "v1")], "", 0⟩], [], fun _ => 0,
          [⟨2, [], [], "", 0⟩], [],
          [("cat", ⟨"Old", ["v1"], false⟩)], [("cat", .nullv)]⟩).dbImages
      = [⟨2, [], [], "", 0⟩] :=
  ⟨by decide,
    (c9_label_change_resets_memory_only "cat" "New" "v1" false
      ⟨[⟨1, [], [("cat", .str "v1")], "", 0⟩], [], fun _ => 0,
        [⟨2, [], [], "", 0⟩], [],
        [("cat", ⟨"Old", ["v1"], false⟩)], [("cat", .nullv)]⟩
      ⟨"Old", ["v1"], false⟩ (by decide) (by decide) (by decide) (by decide) (by decide)).2⟩

/-! ## Claim C10: vocabulary invariants across mutations -/

/-- What `renameTag` does to the vocabulary, by case. -/
theorem renameTag_allTags (oldTag newTag0 : String) (s : App.Catalog) :
    (App.renameTag oldTag newTag0 s).allTags =
      if newTag0 = "" ∨ newTag0 = oldTag then s.allTags
      else if normalizeTag newTag0 = "" then s.allTags
      else if normalizeTag newTag0 ∈ s.allTags then s.allTags.filter (fun t => t ≠ oldTag)
      else sortStrs (s.allTags.filter (fun t => t ≠ oldTag) ++ [normalizeTag newTag0]) := by
  simp only [App.renameTag]
  split_ifs <;> rfl

/-- **C10** (amended): every vocabulary mutation preserves freedom from
exact duplicates — `addTag` (which additionally leaves the vocabulary
sorted when it inserts), `renameTag` in both the merge and the non-merge
case, `deleteTag` / `deleteFreeTags`, and `importData` (whose
de-duplicated union is duplicate-free unconditionally).  `deleteTag`,
`deleteFreeTags` and merge-case `renameTag` leave the surviving entries
in their original order (the result is a sublist of the old vocabulary),
but a non-merge `renameTag` re-sorts the entire vocabulary, so untouched
entries keep their relative order only if the vocabulary was already
sorted. -/
theorem c10_vocabulary_invariants (tag oldTag newTag0 : String) (ts : App.TagStore)
    (s : App.Catalog) (m : Bool) (data : Outfit.ExportBlob) (c : Outfit.State) :
    (ts.allTags.Nodup → ((App.addTag tag ts).1.allTags).Nodup) ∧
    (jsTrim tag ≠ "" → jsTrim tag ∉ ts.allTags → ((App.addTag tag ts).1.allTags).Sorted strLe) ∧
    (s.allTags.Nodup → ((App.renameTag oldTag newTag0 s).allTags).Nodup) ∧
    (normalizeTag newTag0 ∈ s.allTags →
      List.Sublist ((App.renameTag oldTag newTag0 s).allTags) s.allTags) ∧
    (newTag0 ≠ "" → newTag0 ≠ oldTag → normalizeTag newTag0 ≠ "" →
      normalizeTag newTag0 ∉ s.allTags →
      (((App.renameTag oldTag newTag0 s).allTags).Sorted strLe ∧
        ∀ t, t ∈ (App.renameTag oldTag newTag0 s).allTags ↔
          (t ∈ s.allTags ∧ t ≠ oldTag) ∨ t = normalizeTag newTag0)) ∧
    List.Sublist ((App.deleteTag tag s).allTags) s.allTags ∧
    (s.allTags.Nodup → ((App.deleteTag tag s).allTags).Nodup) ∧
    List.Sublist ((Outfit.deleteFreeTags tag c).allFreeTags) c.allFreeTags ∧
    (c.allFreeTags.Nodup → ((Outfit.deleteFreeTags tag c).allFreeTags).Nodup) ∧
    ((Outfit.importData m data c).allFreeTags).Nodup := by
  refine ⟨?_, ?_, ?_, ?_, ?_, ?_, ?_, ?_, ?_, ?_⟩
  · intro hnd
    rw [App.addTag]
    by_cases hc : jsTrim tag = "" ∨ jsTrim tag ∈ ts.allTags
    · rw [if_pos hc]; exact hnd
    · rw [if_neg hc]
      push_neg at hc
      refine ((List.perm_insertionSort strLe _).nodup_iff).mpr ?_
      rw [List.nodup_append]
      exact ⟨hnd, List.nodup_singleton _, fun a ha hb => hc.2 ((List.mem_singleton.mp hb) ▸ ha)⟩
  · intro h1 h2
    have hc : ¬ (jsTrim tag = "" ∨ jsTrim tag ∈ ts.allTags) := by
      rintro (h | h)
      · exact h1 h
      · exact h2 h
    rw [App.addTag, if_neg hc]
    exact List.sorted_insertionSort strLe _
  · intro hnd
    rw [renameTag_allTags]
    split_ifs with h1 h2 h3
    · exact hnd
    · exact hnd
    · exact hnd.filter _
    · refine ((List.perm_insertionSort strLe _).nodup_iff).mpr ?_
      rw [List.nodup_append]
      refine ⟨hnd.filter _, List.nodup_singleton _, fun a ha hb => ?_⟩
      rw [List.mem_singleton] at hb
      subst hb
      exact h3 (List.mem_of_mem_filter ha)
  · intro hmem
    rw [renameTag_allTags]
    split_ifs
    · exact List.Sublist.refl _
    · exact List.Sublist.refl _
    · exact List.filter_sublist _
  · intro h1 h2 h3 h4
    have hg : ¬ (newTag0 = "" ∨ newTag0 = oldTag) := by
      rintro (h | h)
      · exact h1 h
      · exact h2 h
    rw [renameTag_allTags, if_neg hg, if_neg h3, if_neg h4]
    refine ⟨List.sorted_insertionSort strLe _, fun t => ?_⟩
    rw [sortStrs, List.mem_insertionSort, List.mem_append, List.mem_singleton, List.mem_filter]
    simp
  · exact List.filter_sublist _
  · intro hnd
    exact hnd.filter _
  · exact List.filter_sublist _
  · intro hnd
    exact hnd.filter _
  · exact nodup_jsDedup _

/-- **C10** witness: a non-merge rename on the sorted, duplicate-free
vocabulary `["a", "b", "x"]` — the result is duplicate-free and sorted
and holds exactly the expected tags; and the de-duplicated import union
is duplicate-free. -/
theorem c10_witness :
    ((["a", "b", "x"] : List String).Nodup ∧
      ((App.renameTag "x" "z"
        ⟨[], ["a", "b", "x"], fun _ => 0, [], ["a", "b", "x"]⟩).allTags).Nodup) ∧
    ("z" : String) ≠ "" ∧ normalizeTag "z" ∉ (["a", "b", "x"] : List String) ∧
    ((App.renameTag "x" "z"
        ⟨[], ["a", "b", "x"], fun _ => 0, [], ["a", "b", "x"]⟩).allTags).Sorted strLe :=
  ⟨⟨by decide,
      (c10_vocabulary_invariants "t" "x" "z" ⟨[], []⟩
        ⟨[], ["a", "b", "x"], fun _ => 0, [], ["a", "b", "x"]⟩ false ⟨2, [], [], []⟩
        ⟨[], [], fun _ => 0, [], [], [], []⟩).2.2.1 (by decide)⟩,
    by decide, by decide,
    ((c10_vocabulary_invariants "t" "x" "z" ⟨[], []⟩
        ⟨[], ["a", "b", "x"], fun _ => 0, [], ["a", "b", "x"]⟩ false ⟨2, [], [], []⟩
        ⟨[], [], fun _ => 0, [], [], [], []⟩).2.2.2.2.1 (by decide) (by decide) (by decide)
        (by decide)).1⟩
